import Mathlib

/-
Verification of the PD-regulator controller and least-squares parameter
estimator in `src/solution.py` (class `Model`).

Shallow embedding conventions:
* machine floats are modelled as exact rationals (ℚ);
* `perf_counter() - t0` readings are an environment-supplied script of
  elapsed times, one per loop iteration (the clock is external input);
* the motor (`GyemsDRC`) is an external collaborator: each tick's visible
  device state (angle, speed, current) is environment-supplied, and the
  current visible after `set_current` returns is likewise environment
  supplied (the driver refreshes its `state` dict from the device reply;
  indeed no other call in the loop could ever refresh it);
* exceptions are modelled by the tick outcome (`fault` for a device error
  raised inside `pd_regulator`, `interrupt` for `KeyboardInterrupt`);
* device interactions are recorded in an event log so that call counts and
  call order can be stated;
* `np.linalg.pinv` on the 2×m matrix `[dq; ddq]` is the Moore–Penrose
  pseudo-inverse, computed exactly over ℚ by the standard closed forms:
  `Bᵀ(BBᵀ)⁻¹` when the 2×2 Gram matrix `BBᵀ` is invertible,
  `Bᵀ·(BBᵀ)/tr(BBᵀ)²` when `BBᵀ` has rank one, and `0` when `B = 0`.
-/

namespace Mechatronics

/-- The `DeviceParams` dataclass of `solution.py`. -/
structure DeviceParams where
  kp : ℚ
  kd : ℚ
  q_def : ℚ
  dq_def : ℚ
  current_limit : ℚ
  time_stop : ℚ
deriving DecidableEq

/-- Device interactions performed by the controller (calls on the
`GyemsDRC` object), in program order. -/
inductive Ev
  | setDegrees
  | setLimit (l : ℚ)
  | enable
  | setCurrent (u : ℚ)
  | disable
deriving DecidableEq

/-- Environment input for one loop iteration: either the device state
visible at the start of the tick (`q` = angle, `dq` = speed, `cur` = current,
with `curAfter` the current visible after `set_current` returns), or an
exception raised inside `pd_regulator` (`fault` = device error,
`interrupt` = `KeyboardInterrupt`). -/
inductive Tick
  | ok (q dq cur curAfter : ℚ)
  | fault
  | interrupt
deriving DecidableEq

/-- One row appended to `self.state`: `[q, dq, current, u]`. -/
structure Sample where
  q : ℚ
  dq : ℚ
  cur : ℚ
  u : ℚ
deriving DecidableEq

/-- The mutable lists of the `Model` object, plus the device-call log. -/
structure LoopSt where
  log : List Ev
  state : List Sample
  error : List ℚ
  time : List ℚ
deriving DecidableEq

/-- Why the loop in `simulate` stopped. -/
inductive Reason
  | normal
  | cancelled
  | fault
deriving DecidableEq

/-- Device calls performed by `Model.__init__` via `setup`:
`set_degrees()`, `current_limit = cl`, `enable()`.  There is no
validation of any parameter. -/
def initLog (p : DeviceParams) : List Ev :=
  [Ev.setDegrees, Ev.setLimit p.current_limit, Ev.enable]

/-- The PD command of `pd_regulator`: `u = kp*(q_des - q) + kd*(dq_des - dq)`. -/
def pdU (p : DeviceParams) (q dq : ℚ) : ℚ :=
  p.kp * (p.q_def - q) + p.kd * (p.dq_def - dq)

/-- The `while t < self.time_stop` loop of `Model.simulate`, including the
`except KeyboardInterrupt` handler.  Arguments: the remaining script of
iteration inputs (measured elapsed time `t'` paired with the tick outcome)
and the current value of the variable `t` (checked by the `while`
condition before `t` is re-measured).  Returns `none` when the script is
exhausted before the loop stops (the model's stand-in for an unfinished
loop), otherwise the lists produced from this point on and the
termination reason.  An `ok` tick performs, in source order:
`u = kp*e + kd*ė`; `set_current(u)`; `state.append([q, dq, current, u])`
(the current as visible after `set_current`); `error.append(q_des - q)`;
`time.append(t)`. -/
def loop (p : DeviceParams) : List (ℚ × Tick) → ℚ → Option (LoopSt × Reason)
  | [], t =>
    if p.time_stop ≤ t then some (⟨[], [], [], []⟩, Reason.normal) else none
  | (t', tk) :: rest, t =>
    if p.time_stop ≤ t then some (⟨[], [], [], []⟩, Reason.normal)
    else
      match tk with
      | Tick.fault => some (⟨[], [], [], []⟩, Reason.fault)
      | Tick.interrupt => some (⟨[Ev.setCurrent 0], [], [], []⟩, Reason.cancelled)
      | Tick.ok q dq _ c2 =>
        (loop p rest t').map (fun x =>
          (⟨Ev.setCurrent (pdU p q dq) :: x.1.log,
            ⟨q, dq, c2, pdU p q dq⟩ :: x.1.state,
            (p.q_def - q) :: x.1.error,
            t' :: x.1.time⟩, x.2))

/-- `Model.simulate`: run the loop from `t = 0`, then execute the
`finally` block: `set_current(0)`; `disable()` (then `plot()`, which makes
no device calls).  On `KeyboardInterrupt` the `except` handler has already
sent its own `set_current(0)` inside `loop`. -/
def simulate (p : DeviceParams) (script : List (ℚ × Tick)) :
    Option (LoopSt × Reason) :=
  (loop p script 0).map (fun x =>
    (⟨x.1.log ++ [Ev.setCurrent 0, Ev.disable], x.1.state, x.1.error, x.1.time⟩,
     x.2))

/-- Dot product of two rational lists (extra elements of the longer list
are ignored; all uses are at equal lengths). -/
def dot : List ℚ → List ℚ → ℚ
  | x :: xs, y :: ys => x * y + dot xs ys
  | _, _ => 0

/-- `np.diff`: consecutive differences `xs[i+1] - xs[i]`. -/
def diffs (xs : List ℚ) : List ℚ :=
  List.zipWith (fun a b => a - b) xs.tail xs

/-- The least-squares solve at the heart of `get_params`:
`params = I.T @ np.linalg.pinv(np.asarray([dq, ddq]))`, returned as the
pair `(params[0,0], params[0,1])`.  With `B = [a; b]` (here `a = dq`,
`b = ddq`) and Gram matrix `G = BBᵀ = [[a·a, a·b],[a·b, b·b]]`, the
Moore–Penrose pseudo-inverse gives `paramsᵀ = pinv(B)ᵀ y = G⁺ (a·y, b·y)ᵀ`
with `G⁺ = G⁻¹` when `det G ≠ 0`, `G⁺ = G / (tr G)²` when `G` has rank
one, and `G⁺ = 0` when `G = 0`.  So `params[0,0]` is the coefficient
multiplying column `a = dq` and `params[0,1]` the coefficient multiplying
column `b = ddq`. -/
def solveLS (a b y : List ℚ) : ℚ × ℚ :=
  if dot a a * dot b b - dot a b * dot a b ≠ 0 then
    ((dot b b * dot a y - dot a b * dot b y) /
       (dot a a * dot b b - dot a b * dot a b),
     (dot a a * dot b y - dot a b * dot a y) /
       (dot a a * dot b b - dot a b * dot a b))
  else if dot a a + dot b b ≠ 0 then
    ((dot a a * dot a y + dot a b * dot b y) / (dot a a + dot b b) ^ 2,
     (dot a b * dot a y + dot b b * dot b y) / (dot a a + dot b b) ^ 2)
  else (0, 0)

/-- The finite-difference accelerations of `get_params`:
`ddq = np.diff(dq) / np.diff(t)` where `dq` is column 1 of `self.state`
and `t` is `self.time`. -/
def ddqOf (time : List ℚ) (state : List Sample) : List ℚ :=
  List.zipWith (fun x y => x / y) (diffs (state.map Sample.dq)) (diffs time)

/-- `Model.get_params`.  Columns: `q = state[:,0]` (unused afterwards),
`dq = state[:,1]`, `I = state[:,2]`; `ddq = np.diff(dq)/np.diff(t)`;
`dq, t, I = dq[1:], t[1:], I[1:]`; then
`params = I.T @ np.linalg.pinv(np.asarray([dq, ddq]))` and the result is
`(params[0,0], params[0,1])` — see `solveLS`.  On an empty `self.state`,
`state[:, 0]` raises `IndexError` (a 1-D array has no second axis):
modelled as `none`.  For a single sample all arrays after alignment are
empty, `pinv` of the empty 2×0 matrix is the empty 0×2 matrix, and the
product is the 1×2 zero row, so the call returns `(0.0, 0.0)`. -/
def get_params (time : List ℚ) (state : List Sample) : Option (ℚ × ℚ) :=
  if state = [] then none
  else
    some (solveLS (state.map Sample.dq).tail (ddqOf time state)
      (state.map Sample.cur).tail)

/-- Written from the spec's words, for comparison with `get_params`
(spec §4.2 step 6: "Return EstimationResult{J = coefficient of ddq,
B = coefficient of dq}"): the same frozen-sequence least-squares solve,
but the first returned component is the coefficient of the acceleration
column `ddq` (the moment of inertia `J`) and the second the coefficient
of the velocity column `dq` (the friction coefficient `B`). -/
def specEstimate (time : List ℚ) (state : List Sample) : Option (ℚ × ℚ) :=
  if state = [] then none
  else
    some ((solveLS (state.map Sample.dq).tail (ddqOf time state)
        (state.map Sample.cur).tail).2,
      (solveLS (state.map Sample.dq).tail (ddqOf time state)
        (state.map Sample.cur).tail).1)

/-- Normal equations of the least-squares problem with design-matrix
columns `a`, `b` and target `y`: `Gᵀ c = (a·y, b·y)` characterises the
least-squares solutions of `[a b] c ≈ y`. -/
def NE (a b y : List ℚ) (c : ℚ × ℚ) : Prop :=
  dot a a * c.1 + dot a b * c.2 = dot a y ∧
  dot a b * c.1 + dot b b * c.2 = dot b y

/-- Linear combination `r·a + s·b` of two columns, pointwise. -/
def comboList (r s : ℚ) (a b : List ℚ) : List ℚ :=
  List.zipWith (fun x z => r * x + s * z) a b

/-- Residual vector `c.1·a + c.2·b - y` of a candidate coefficient pair. -/
def resid (a b y : List ℚ) (c : ℚ × ℚ) : List ℚ :=
  List.zipWith (fun v w => v - w) (comboList c.1 c.2 a b) y

/-- Squared euclidean norm of the residual. -/
def residSq (a b y : List ℚ) (c : ℚ × ℚ) : ℚ :=
  dot (resid a b y c) (resid a b y c)

/-- Number of occurrences of a device event in the log. -/
def countEv (e : Ev) : List Ev → ℕ
  | [] => 0
  | x :: xs => (if x = e then 1 else 0) + countEv e xs

/-- Number of recorded samples whose desired-current command is zero
(each corresponds to one in-loop `set_current(0)`). -/
def countUzero : List Sample → ℕ
  | [] => 0
  | s :: ss => (if s.u = 0 then 1 else 0) + countUzero ss

/-- Last recorded loop time (`0` if nothing was recorded). -/
def lastT (times : List ℚ) : ℚ := times.getLastD 0

/-- Consecutive gaps of a list of clock readings. -/
def gaps (xs : List ℚ) : List ℚ :=
  List.zipWith (fun a b => a - b) xs.tail xs

/-- The largest observed tick latency of a run: the maximum gap between
consecutive clock observations, the loop entry at elapsed time `0`
included. -/
def maxGap (times : List ℚ) : ℚ :=
  (gaps ((0 : ℚ) :: times)).foldr max 0

lemma countEv_append (e : Ev) (l1 l2 : List Ev) :
    countEv e (l1 ++ l2) = countEv e l1 + countEv e l2 := by
  induction l1 with
  | nil => simp [countEv]
  | cons x xs ih => simp [countEv, ih, Nat.add_assoc]

/-- Loop invariant for event counts: the in-loop log contains one
`set_current(0)` per tick whose PD command happened to be zero, plus one
more from the `except KeyboardInterrupt` handler when the loop was
cancelled; the in-loop log never contains `disable()`. -/
lemma loop_count (p : DeviceParams) (script : List (ℚ × Tick)) :
    ∀ (t : ℚ) (out : LoopSt) (r : Reason),
      loop p script t = some (out, r) →
      countEv (Ev.setCurrent 0) out.log
          = countUzero out.state + (if r = Reason.cancelled then 1 else 0) ∧
        countEv Ev.disable out.log = 0 := by
  induction script with
  | nil =>
    intro t out r h
    simp only [loop] at h
    split at h
    · simp only [Option.some.injEq, Prod.mk.injEq] at h
      obtain ⟨h1, h2⟩ := h
      subst h1; subst h2
      simp [countEv, countUzero]
    · cases h
  | cons hd rest ih =>
    obtain ⟨t', tk⟩ := hd
    intro t out r h
    simp only [loop] at h
    split at h
    · simp only [Option.some.injEq, Prod.mk.injEq] at h
      obtain ⟨h1, h2⟩ := h
      subst h1; subst h2
      simp [countEv, countUzero]
    · cases tk with
      | fault =>
        simp only [Option.some.injEq, Prod.mk.injEq] at h
        obtain ⟨h1, h2⟩ := h
        subst h1; subst h2
        simp [countEv, countUzero]
      | interrupt =>
        simp only [Option.some.injEq, Prod.mk.injEq] at h
        obtain ⟨h1, h2⟩ := h
        subst h1; subst h2
        simp [countEv, countUzero]
      | ok q dq c1 c2 =>
        rw [Option.map_eq_some'] at h
        obtain ⟨⟨out', r'⟩, hrec, hmk⟩ := h
        simp only [Prod.mk.injEq] at hmk
        obtain ⟨h1, h2⟩ := hmk
        subst h1; subst h2
        obtain ⟨ih1, ih2⟩ := ih t' out' r' hrec
        constructor
        · simp only [countEv, countUzero, Ev.setCurrent.injEq, ih1]
          split_ifs <;> omega
        · simpa [countEv] using ih2

/-- Loop invariant for the recorded lists: the three lists grow in
lockstep, each recorded error is `q_def` minus the recorded angle, and
each recorded command is the PD formula applied to the recorded angle
and velocity. -/
lemma loop_shape (p : DeviceParams) (script : List (ℚ × Tick)) :
    ∀ (t : ℚ) (out : LoopSt) (r : Reason),
      loop p script t = some (out, r) →
      out.state.length = out.error.length ∧
        out.error.length = out.time.length ∧
        (∀ (i : ℕ) (hi : i < out.error.length) (hi' : i < out.state.length),
          out.error.get ⟨i, hi⟩ = p.q_def - (out.state.get ⟨i, hi'⟩).q) ∧
        (∀ s ∈ out.state, s.u = pdU p s.q s.dq) := by
  induction script with
  | nil =>
    intro t out r h
    simp only [loop] at h
    split at h
    · simp only [Option.some.injEq, Prod.mk.injEq] at h
      obtain ⟨h1, h2⟩ := h
      subst h1; subst h2
      exact ⟨rfl, rfl, fun i hi => by simp at hi, fun s hs => by simp at hs⟩
    · cases h
  | cons hd rest ih =>
    obtain ⟨t', tk⟩ := hd
    intro t out r h
    simp only [loop] at h
    split at h
    · simp only [Option.some.injEq, Prod.mk.injEq] at h
      obtain ⟨h1, h2⟩ := h
      subst h1; subst h2
      exact ⟨rfl, rfl, fun i hi => by simp at hi, fun s hs => by simp at hs⟩
    · cases tk with
      | fault =>
        simp only [Option.some.injEq, Prod.mk.injEq] at h
        obtain ⟨h1, h2⟩ := h
        subst h1; subst h2
        exact ⟨rfl, rfl, fun i hi => by simp at hi, fun s hs => by simp at hs⟩
      | interrupt =>
        simp only [Option.some.injEq, Prod.mk.injEq] at h
        obtain ⟨h1, h2⟩ := h
        subst h1; subst h2
        exact ⟨rfl, rfl, fun i hi => by simp at hi, fun s hs => by simp at hs⟩
      | ok q dq c1 c2 =>
        rw [Option.map_eq_some'] at h
        obtain ⟨⟨out', r'⟩, hrec, hmk⟩ := h
        simp only [Prod.mk.injEq] at hmk
        obtain ⟨h1, h2⟩ := hmk
        subst h1; subst h2
        obtain ⟨ihl, ihl', ihe, ihu⟩ := ih t' out' r' hrec
        refine ⟨by simpa using ihl, by simpa using ihl', ?_, ?_⟩
        · intro i hi hi'
          cases i with
          | zero => rfl
          | succ j =>
            simp only [List.length_cons] at hi hi'
            exact ihe j (Nat.lt_of_succ_lt_succ hi) (Nat.lt_of_succ_lt_succ hi')
        · intro s hs
          rcases List.mem_cons.mp hs with hs | hs
          · subst hs; rfl
          · exact ihu s hs

/-- If the loop recorded any time at all, the `while` condition held when
it was entered. -/
lemma loop_lt_of_time_ne_nil (p : DeviceParams) (script : List (ℚ × Tick))
    (t : ℚ) (out : LoopSt) (r : Reason) (h : loop p script t = some (out, r))
    (hne : out.time ≠ []) : t < p.time_stop := by
  by_contra hle
  have hle' : p.time_stop ≤ t := not_lt.mp hle
  cases script with
  | nil =>
    simp only [loop, if_pos hle', Option.some.injEq, Prod.mk.injEq] at h
    obtain ⟨h1, _⟩ := h
    subst h1
    exact hne rfl
  | cons hd rest =>
    obtain ⟨t', tk⟩ := hd
    simp only [loop, if_pos hle', Option.some.injEq, Prod.mk.injEq] at h
    obtain ⟨h1, _⟩ := h
    subst h1
    exact hne rfl

/-- Every recorded loop time except possibly the last one is strictly
below `time_stop` (it passed the `while` check and the loop went on). -/
lemma loop_times_lt (p : DeviceParams) (script : List (ℚ × Tick)) :
    ∀ (t : ℚ) (out : LoopSt) (r : Reason),
      loop p script t = some (out, r) →
      ∀ (i : ℕ) (hi : i + 1 < out.time.length),
        out.time.get ⟨i, Nat.lt_of_succ_lt hi⟩ < p.time_stop := by
  induction script with
  | nil =>
    intro t out r h i hi
    simp only [loop] at h
    split at h
    · simp only [Option.some.injEq, Prod.mk.injEq] at h
      obtain ⟨h1, _⟩ := h
      subst h1
      simp at hi
    · cases h
  | cons hd rest ih =>
    obtain ⟨t', tk⟩ := hd
    intro t out r h i hi
    simp only [loop] at h
    split at h
    · simp only [Option.some.injEq, Prod.mk.injEq] at h
      obtain ⟨h1, _⟩ := h
      subst h1
      simp at hi
    · cases tk with
      | fault =>
        simp only [Option.some.injEq, Prod.mk.injEq] at h
        obtain ⟨h1, _⟩ := h
        subst h1
        simp at hi
      | interrupt =>
        simp only [Option.some.injEq, Prod.mk.injEq] at h
        obtain ⟨h1, _⟩ := h
        subst h1
        simp at hi
      | ok q dq c1 c2 =>
        rw [Option.map_eq_some'] at h
        obtain ⟨⟨out', r'⟩, hrec, hmk⟩ := h
        simp only [Prod.mk.injEq] at hmk
        obtain ⟨h1, h2⟩ := hmk
        subst h1; subst h2
        cases i with
        | zero =>
          have hne : out'.time ≠ [] := by
            simp only [List.length_cons] at hi
            exact List.ne_nil_of_length_pos (Nat.lt_of_succ_lt_succ hi)
          simpa using loop_lt_of_time_ne_nil p rest t' out' r' hrec hne
        | succ j =>
          simp only [List.length_cons] at hi
          simpa using ih t' out' r' hrec j (Nat.lt_of_succ_lt_succ hi)

/-- A loop run that stops with reason `NormalCompletion`, entered with
the `while` condition true, has recorded at least one sample. -/
lemma loop_state_ne_nil_normal (p : DeviceParams) (script : List (ℚ × Tick))
    (t : ℚ) (out : LoopSt) (ht : t < p.time_stop)
    (h : loop p script t = some (out, Reason.normal)) : out.state ≠ [] := by
  cases script with
  | nil =>
    simp only [loop, if_neg (not_le.mpr ht)] at h
    cases h
  | cons hd rest =>
    obtain ⟨t', tk⟩ := hd
    simp only [loop, if_neg (not_le.mpr ht)] at h
    cases tk with
    | fault => simp at h
    | interrupt => simp at h
    | ok q dq c1 c2 =>
      rw [Option.map_eq_some'] at h
      obtain ⟨⟨out', r'⟩, _, hmk⟩ := h
      simp only [Prod.mk.injEq] at hmk
      obtain ⟨h1, _⟩ := hmk
      subst h1
      simp

/-- A loop run whose first scripted tick reads the device successfully,
entered with the `while` condition true, records at least one sample. -/
lemma loop_state_ne_nil_ok (p : DeviceParams) (t1 q dq c1 c2 : ℚ)
    (tkrest : List (ℚ × Tick)) (t : ℚ) (out : LoopSt) (r : Reason)
    (ht : t < p.time_stop)
    (h : loop p ((t1, Tick.ok q dq c1 c2) :: tkrest) t = some (out, r)) :
    out.state ≠ [] := by
  rw [loop, if_neg (not_le.mpr ht)] at h
  rw [Option.map_eq_some'] at h
  obtain ⟨⟨out', r'⟩, _, hmk⟩ := h
  simp only [Prod.mk.injEq] at hmk
  obtain ⟨h1, _⟩ := hmk
  subst h1
  simp

lemma lastT_cons_ne (a : ℚ) (l : List ℚ) (h : l ≠ []) :
    lastT (a :: l) = lastT l := by
  cases l with
  | nil => exact absurd rfl h
  | cons b m => simp [lastT, List.getLastD_cons]

lemma le_foldr_max (x : ℚ) (l : List ℚ) (h : x ∈ l) : x ≤ l.foldr max 0 := by
  induction l with
  | nil => cases h
  | cons a m ih =>
    rcases List.mem_cons.mp h with h | h
    · subst h; exact le_max_left _ _
    · exact le_trans (ih h) (le_max_right _ _)

/-- Termination of the busy loop: on an all-`ok` script whose clock
eventually reaches `time_stop`, entered with the `while` condition true,
the loop stops normally; the last recorded time has reached `time_stop`
and overshoots it by less than the largest gap between consecutive clock
observations (the entry observation `t` included). -/
lemma loop_reaches (p : DeviceParams) (script : List (ℚ × Tick)) :
    ∀ t : ℚ,
      (∀ e ∈ script, ∃ q dq c1 c2, e.2 = Tick.ok q dq c1 c2) →
      (∃ e ∈ script, p.time_stop ≤ e.1) →
      t < p.time_stop →
      ∃ out, loop p script t = some (out, Reason.normal) ∧
        out.time ≠ [] ∧
        p.time_stop ≤ lastT out.time ∧
        lastT out.time < p.time_stop + (gaps (t :: out.time)).foldr max 0 := by
  induction script with
  | nil =>
    intro t _ hterm _
    obtain ⟨e, he, _⟩ := hterm
    cases he
  | cons hd rest ih =>
    obtain ⟨t1, tk⟩ := hd
    intro t hall hterm ht
    obtain ⟨q, dq, c1, c2, htk⟩ := hall (t1, tk) (List.mem_cons_self _ _)
    simp only at htk
    subst htk
    by_cases hstop : p.time_stop ≤ t1
    · refine ⟨⟨[Ev.setCurrent (pdU p q dq)], [⟨q, dq, c2, pdU p q dq⟩],
        [p.q_def - q], [t1]⟩, ?_, by simp, by simpa [lastT] using hstop, ?_⟩
      · rw [loop, if_neg (not_le.mpr ht)]
        cases rest with
        | nil => simp [loop, if_pos hstop]
        | cons hd2 rest2 =>
          obtain ⟨t2, tk2⟩ := hd2
          simp [loop, if_pos hstop]
      · have h1 : lastT [t1] = t1 := by simp [lastT]
        have hmem : t1 - t ∈ gaps (t :: [t1]) := by simp [gaps]
        have h2 := le_foldr_max (t1 - t) (gaps (t :: [t1])) hmem
        show lastT [t1] < p.time_stop + (gaps (t :: [t1])).foldr max 0
        rw [h1]
        linarith
    · have hterm' : ∃ e ∈ rest, p.time_stop ≤ e.1 := by
        obtain ⟨e, he, hle⟩ := hterm
        rcases List.mem_cons.mp he with he | he
        · subst he; exact absurd hle hstop
        · exact ⟨e, he, hle⟩
      have hall' : ∀ e ∈ rest, ∃ q dq c1 c2, e.2 = Tick.ok q dq c1 c2 :=
        fun e he => hall e (List.mem_cons_of_mem _ he)
      obtain ⟨out', hl', hne', hlast', hgap'⟩ :=
        ih t1 hall' hterm' (not_le.mp hstop)
      refine ⟨⟨Ev.setCurrent (pdU p q dq) :: out'.log,
        ⟨q, dq, c2, pdU p q dq⟩ :: out'.state,
        (p.q_def - q) :: out'.error, t1 :: out'.time⟩, ?_, by simp, ?_, ?_⟩
      · rw [loop, if_neg (not_le.mpr ht), hl']
        rfl
      · rw [show (⟨Ev.setCurrent (pdU p q dq) :: out'.log,
          ⟨q, dq, c2, pdU p q dq⟩ :: out'.state,
          (p.q_def - q) :: out'.error, t1 :: out'.time⟩ : LoopSt).time
            = t1 :: out'.time from rfl, lastT_cons_ne t1 out'.time hne']
        exact hlast'
      · have hstep : gaps (t :: t1 :: out'.time)
            = (t1 - t) :: gaps (t1 :: out'.time) := by
          simp [gaps]
        have hmax : (gaps (t1 :: out'.time)).foldr max 0
            ≤ (gaps (t :: t1 :: out'.time)).foldr max 0 := by
          rw [hstep]
          exact le_max_right _ _
        rw [show (⟨Ev.setCurrent (pdU p q dq) :: out'.log,
          ⟨q, dq, c2, pdU p q dq⟩ :: out'.state,
          (p.q_def - q) :: out'.error, t1 :: out'.time⟩ : LoopSt).time
            = t1 :: out'.time from rfl, lastT_cons_ne t1 out'.time hne']
        linarith

/-- C2: on every termination of the control loop — normal completion,
cancellation (`KeyboardInterrupt`), or a fault raised during a tick — the
`finally` block of `Model.simulate` runs, so the device-call log ends
with a zero current command followed by disabling the output stage, in
that order, before `simulate` returns. -/
theorem C2_shutdown_sequence_always (p : DeviceParams)
    (script : List (ℚ × Tick)) (st : LoopSt) (r : Reason)
    (h : simulate p script = some (st, r)) :
    ∃ pre, st.log = pre ++ [Ev.setCurrent 0, Ev.disable] := by
  unfold simulate at h
  rw [Option.map_eq_some'] at h
  obtain ⟨⟨out, r'⟩, _, hmk⟩ := h
  simp only [Prod.mk.injEq] at hmk
  obtain ⟨h1, _⟩ := hmk
  exact ⟨out.log, by rw [← h1]⟩

/-- Witness for C2 at a concrete normally-completing run. -/
theorem C2_shutdown_sequence_always_witness :
    ∃ pre, ([Ev.setCurrent 0, Ev.setCurrent 0, Ev.disable] : List Ev)
      = pre ++ [Ev.setCurrent 0, Ev.disable] :=
  C2_shutdown_sequence_always ⟨1, 1, 0, 0, 10, 1⟩ [(2, Tick.ok 0 0 0 0)]
    ⟨[Ev.setCurrent 0, Ev.setCurrent 0, Ev.disable], [⟨0, 0, 0, 0⟩], [0], [2]⟩
    Reason.normal (by norm_num [simulate, loop, pdU])

/-- C3 counterexample: in a cancelled run the actuator receives TWO
zero-current commands — one from the `except KeyboardInterrupt` handler
and one from the `finally` block — refuting "exactly one zero-current
command per loop execution". -/
theorem C3_counterexample :
    simulate ⟨3, 3, 90, 0, 200, 10⟩ [(1, Tick.interrupt)]
      = some (⟨[Ev.setCurrent 0, Ev.setCurrent 0, Ev.disable], [], [], []⟩,
          Reason.cancelled) ∧
    countEv (Ev.setCurrent 0)
      [Ev.setCurrent 0, Ev.setCurrent 0, Ev.disable] = 2 := by
  constructor
  · norm_num [simulate, loop]
  · simp [countEv]

/-- C3 (amended): the actuator receives exactly one `disable()` call per
run; the zero-current command is sent exactly once on NormalCompletion
and Fault and exactly twice on Cancelled (except handler plus finally
block), beyond any in-loop ticks whose PD command happened to equal
zero. -/
theorem C3_amended_call_counts (p : DeviceParams) (script : List (ℚ × Tick))
    (st : LoopSt) (r : Reason) (h : simulate p script = some (st, r)) :
    countEv Ev.disable st.log = 1 ∧
    countEv (Ev.setCurrent 0) st.log
      = countUzero st.state + (if r = Reason.cancelled then 2 else 1) := by
  unfold simulate at h
  rw [Option.map_eq_some'] at h
  obtain ⟨⟨out, r'⟩, hrec, hmk⟩ := h
  simp only [Prod.mk.injEq] at hmk
  obtain ⟨h1, h2⟩ := hmk
  subst h2
  obtain ⟨hc1, hc2⟩ := loop_count p script 0 out r' hrec
  have hlog : st.log = out.log ++ [Ev.setCurrent 0, Ev.disable] := by
    rw [← h1]
  have hstate : st.state = out.state := by rw [← h1]
  rw [hlog, hstate, countEv_append, countEv_append, hc1, hc2]
  refine ⟨by simp [countEv], ?_⟩
  have hev : countEv (Ev.setCurrent 0) [Ev.setCurrent 0, Ev.disable] = 1 := by
    simp [countEv]
  rw [hev]
  split_ifs <;> omega

/-- Witness for the amended C3 at a concrete cancelled run. -/
theorem C3_amended_call_counts_witness :
    countEv Ev.disable [Ev.setCurrent 0, Ev.setCurrent 0, Ev.disable] = 1 ∧
    countEv (Ev.setCurrent 0) [Ev.setCurrent 0, Ev.setCurrent 0, Ev.disable]
      = countUzero ([] : List Sample)
        + (if Reason.cancelled = Reason.cancelled then 2 else 1) :=
  C3_amended_call_counts ⟨3, 3, 90, 0, 200, 10⟩ [(1, Tick.interrupt)]
    ⟨[Ev.setCurrent 0, Ev.setCurrent 0, Ev.disable], [], [], []⟩
    Reason.cancelled (by norm_num [simulate, loop])

/-- C5 counterexample: the invalid config {time_stop = -1,
current_limit = -5} is not rejected: construction still configures and
enables the actuator, and `simulate` then completes normally with zero
ticks and still runs the shutdown sequence — no `ConfigurationError`
exists anywhere in the code. -/
theorem C5_counterexample :
    Ev.enable ∈ initLog ⟨3, 3, 90, 0, -5, -1⟩ ∧
    simulate ⟨3, 3, 90, 0, -5, -1⟩ []
      = some (⟨[Ev.setCurrent 0, Ev.disable], [], [], []⟩, Reason.normal) := by
  constructor
  · simp [initLog]
  · norm_num [simulate, loop]

/-- C5 (amended): no validation of `DeviceParams` is performed anywhere:
the constructor configures and enables the actuator for every config,
and with `time_stop ≤ 0` the loop body never runs but the run still ends
normally and the shutdown sequence still executes. -/
theorem C5_amended_no_validation (p : DeviceParams)
    (script : List (ℚ × Tick)) (h : p.time_stop ≤ 0) :
    Ev.enable ∈ initLog p ∧
    simulate p script
      = some (⟨[Ev.setCurrent 0, Ev.disable], [], [], []⟩, Reason.normal) := by
  refine ⟨by simp [initLog], ?_⟩
  cases script with
  | nil => simp [simulate, loop, if_pos h]
  | cons hd rest =>
    obtain ⟨t', tk⟩ := hd
    simp [simulate, loop, if_pos h]

/-- Witness for the amended C5 at a concrete invalid config. -/
theorem C5_amended_no_validation_witness :
    Ev.enable ∈ initLog ⟨3, 3, 90, 0, 200, -2⟩ ∧
    simulate ⟨3, 3, 90, 0, 200, -2⟩ [(1, Tick.fault)]
      = some (⟨[Ev.setCurrent 0, Ev.disable], [], [], []⟩, Reason.normal) :=
  C5_amended_no_validation ⟨3, 3, 90, 0, 200, -2⟩ [(1, Tick.fault)]
    (by norm_num)

/-- C6 counterexample: a run in which the device current visible at the
step-1 state read is 7 but the current visible after `set_current`
returns is 3: the recorded sample stores `current_actual = 3`, not the
step-1 value 7 (the source reads `device.state['current']` only after
`set_current(u)`). -/
theorem C6_counterexample :
    simulate ⟨3, 3, 90, 0, 200, 10⟩
        [(1, Tick.ok 0 0 7 3), (11, Tick.ok 1 1 1 1)]
      = some (⟨[Ev.setCurrent 270, Ev.setCurrent 264,
            Ev.setCurrent 0, Ev.disable],
          [⟨0, 0, 3, 270⟩, ⟨1, 1, 1, 264⟩], [90, 89], [1, 11]⟩,
          Reason.normal) ∧
    (⟨0, 0, 3, 270⟩ : Sample).cur ≠ 7 := by
  constructor
  · norm_num [simulate, loop, pdU]
  · norm_num

/-- C6 (amended): every recorded sample's desired-current command is the
PD law applied to the angle and velocity read at the start of its tick
(and `t` is the elapsed time measured at the start of the tick); only
`current_actual` deviates from the claim — it is the device current
visible after the command was sent, not the one of the step-1 read. -/
theorem C6_amended_pd_command (p : DeviceParams) (script : List (ℚ × Tick))
    (st : LoopSt) (r : Reason) (h : simulate p script = some (st, r)) :
    ∀ s ∈ st.state,
      s.u = p.kp * (p.q_def - s.q) + p.kd * (p.dq_def - s.dq) := by
  unfold simulate at h
  rw [Option.map_eq_some'] at h
  obtain ⟨⟨out, r'⟩, hrec, hmk⟩ := h
  simp only [Prod.mk.injEq] at hmk
  obtain ⟨h1, _⟩ := hmk
  have hstate : st.state = out.state := by rw [← h1]
  rw [hstate]
  exact fun s hs => (loop_shape p script 0 out r' hrec).2.2.2 s hs

/-- Witness for the amended C6 at a concrete recorded sample. -/
theorem C6_amended_pd_command_witness :
    (⟨0, 0, 3, 270⟩ : Sample).u
      = (3 : ℚ) * (90 - (⟨0, 0, 3, 270⟩ : Sample).q)
        + 3 * (0 - (⟨0, 0, 3, 270⟩ : Sample).dq) :=
  C6_amended_pd_command ⟨3, 3, 90, 0, 200, 10⟩
    [(1, Tick.ok 0 0 7 3), (11, Tick.ok 1 1 1 1)]
    ⟨[Ev.setCurrent 270, Ev.setCurrent 264, Ev.setCurrent 0, Ev.disable],
      [⟨0, 0, 3, 270⟩, ⟨1, 1, 1, 264⟩], [90, 89], [1, 11]⟩
    Reason.normal (by norm_num [simulate, loop, pdU])
    ⟨0, 0, 3, 270⟩ (List.mem_cons_self _ _)

/-- C9: after any completed run the three recorded arrays have equal
length, and each recorded error equals `q_def` minus the angle stored in
the sample of the same index (the invariant holds after every completed
tick, by the loop invariant `loop_shape`). -/
theorem C9_recorded_arrays_aligned (p : DeviceParams)
    (script : List (ℚ × Tick)) (st : LoopSt) (r : Reason)
    (h : simulate p script = some (st, r)) :
    st.state.length = st.error.length ∧
    st.error.length = st.time.length ∧
    ∀ (i : ℕ) (hi : i < st.error.length) (hi' : i < st.state.length),
      st.error.get ⟨i, hi⟩ = p.q_def - (st.state.get ⟨i, hi'⟩).q := by
  unfold simulate at h
  rw [Option.map_eq_some'] at h
  obtain ⟨⟨out, r'⟩, hrec, hmk⟩ := h
  simp only [Prod.mk.injEq] at hmk
  obtain ⟨h1, _⟩ := hmk
  obtain ⟨ha, hb, hc, _⟩ := loop_shape p script 0 out r' hrec
  subst h1
  exact ⟨ha, hb, hc⟩

/-- Witness for C9 at a concrete run. -/
theorem C9_recorded_arrays_aligned_witness :
    ([⟨0, 0, 3, 270⟩, ⟨1, 1, 1, 264⟩] : List Sample).length
      = ([90, 89] : List ℚ).length ∧
    ([90, 89] : List ℚ).length = ([1, 11] : List ℚ).length ∧
    ∀ (i : ℕ) (hi : i < ([90, 89] : List ℚ).length)
      (hi' : i < ([⟨0, 0, 3, 270⟩, ⟨1, 1, 1, 264⟩] : List Sample).length),
      ([90, 89] : List ℚ).get ⟨i, hi⟩
        = (90 : ℚ) - (([⟨0, 0, 3, 270⟩, ⟨1, 1, 1, 264⟩] : List Sample).get
            ⟨i, hi'⟩).q :=
  C9_recorded_arrays_aligned ⟨3, 3, 90, 0, 200, 10⟩
    [(1, Tick.ok 0 0 7 3), (11, Tick.ok 1 1 1 1)]
    ⟨[Ev.setCurrent 270, Ev.setCurrent 264, Ev.setCurrent 0, Ev.disable],
      [⟨0, 0, 3, 270⟩, ⟨1, 1, 1, 264⟩], [90, 89], [1, 11]⟩
    Reason.normal (by norm_num [simulate, loop, pdU])

/-- C10 counterexample: with `time_stop = 10 > 0` but a device fault in
the very first tick, the run exits with an EMPTY recorded sample
sequence, refuting "the recorded sample sequence is non-empty at loop
exit" as an unconditional statement. -/
theorem C10_counterexample :
    (0 : ℚ) < (⟨3, 3, 90, 0, 200, 10⟩ : DeviceParams).time_stop ∧
    simulate ⟨3, 3, 90, 0, 200, 10⟩ [(1, Tick.fault)]
      = some (⟨[Ev.setCurrent 0, Ev.disable], [], [], []⟩, Reason.fault) := by
  constructor
  · norm_num
  · norm_num [simulate, loop]

/-- C10 (amended): with `time_stop > 0` the loop body is entered at
least once, so a run that terminates normally — and likewise any run
whose first tick reads the device successfully — has a non-empty
recorded sequence (only a fault/cancellation in the first tick leaves it
empty); and every recorded timestamp except possibly the last is
strictly less than `time_stop`. -/
theorem C10_amended_first_tick (p : DeviceParams) (script : List (ℚ × Tick))
    (st : LoopSt) (r : Reason) (h0 : 0 < p.time_stop)
    (h : simulate p script = some (st, r)) :
    (∀ (i : ℕ) (hi : i + 1 < st.time.length),
      st.time.get ⟨i, Nat.lt_of_succ_lt hi⟩ < p.time_stop) ∧
    (r = Reason.normal → st.state ≠ []) ∧
    (∀ (t1 q dq c1 c2 : ℚ) (rest : List (ℚ × Tick)),
      script = (t1, Tick.ok q dq c1 c2) :: rest → st.state ≠ []) := by
  unfold simulate at h
  rw [Option.map_eq_some'] at h
  obtain ⟨⟨out, r'⟩, hrec, hmk⟩ := h
  simp only [Prod.mk.injEq] at hmk
  obtain ⟨h1, h2⟩ := hmk
  subst h1
  subst h2
  refine ⟨loop_times_lt p script 0 out r' hrec, ?_, ?_⟩
  · intro hr
    subst hr
    exact loop_state_ne_nil_normal p script 0 out h0 hrec
  · intro t1 q dq c1 c2 rest hscript
    subst hscript
    exact loop_state_ne_nil_ok p t1 q dq c1 c2 rest 0 out r' h0 hrec

/-- Witness for the amended C10 at a concrete run. -/
theorem C10_amended_first_tick_witness :
    (∀ (i : ℕ) (hi : i + 1 < ([1, 11] : List ℚ).length),
      ([1, 11] : List ℚ).get ⟨i, Nat.lt_of_succ_lt hi⟩ < (10 : ℚ)) ∧
    (Reason.normal = Reason.normal →
      ([⟨0, 0, 3, 270⟩, ⟨1, 1, 1, 264⟩] : List Sample) ≠ []) ∧
    (∀ (t1 q dq c1 c2 : ℚ) (rest : List (ℚ × Tick)),
      [((1 : ℚ), Tick.ok 0 0 7 3), ((11 : ℚ), Tick.ok 1 1 1 1)]
          = (t1, Tick.ok q dq c1 c2) :: rest →
        ([⟨0, 0, 3, 270⟩, ⟨1, 1, 1, 264⟩] : List Sample) ≠ []) :=
  C10_amended_first_tick ⟨3, 3, 90, 0, 200, 10⟩
    [(1, Tick.ok 0 0 7 3), (11, Tick.ok 1 1 1 1)]
    ⟨[Ev.setCurrent 270, Ev.setCurrent 264, Ev.setCurrent 0, Ev.disable],
      [⟨0, 0, 3, 270⟩, ⟨1, 1, 1, 264⟩], [90, 89], [1, 11]⟩
    Reason.normal (by norm_num) (by norm_num [simulate, loop, pdU])

/-- C8: for every valid config (`time_stop > 0`) and an all-`ok` script
of monotone-clock readings that eventually reaches `time_stop`, the loop
terminates normally; its duration — the elapsed time at the final
observation point — satisfies `time_stop ≤ T < time_stop + maxGap`,
where `maxGap` is the largest gap between consecutive clock
observations of the run (the model's `max_tick_latency`). -/
theorem C8_loop_duration (p : DeviceParams) (script : List (ℚ × Tick))
    (h0 : 0 < p.time_stop)
    (hall : ∀ e ∈ script, ∃ q dq c1 c2, e.2 = Tick.ok q dq c1 c2)
    (hterm : ∃ e ∈ script, p.time_stop ≤ e.1) :
    ∃ st, simulate p script = some (st, Reason.normal) ∧
      st.time ≠ [] ∧
      p.time_stop ≤ lastT st.time ∧
      lastT st.time < p.time_stop + maxGap st.time := by
  obtain ⟨out, hl, hne, hlast, hgap⟩ := loop_reaches p script 0 hall hterm h0
  refine ⟨⟨out.log ++ [Ev.setCurrent 0, Ev.disable],
    out.state, out.error, out.time⟩, ?_, hne, hlast, hgap⟩
  unfold simulate
  rw [hl]
  rfl

/-- Witness for C8 at a concrete run. -/
theorem C8_loop_duration_witness :
    ∃ st, simulate ⟨3, 3, 90, 0, 200, 10⟩
        [(1, Tick.ok 0 0 7 3), (11, Tick.ok 1 1 1 1)]
        = some (st, Reason.normal) ∧
      st.time ≠ [] ∧
      (10 : ℚ) ≤ lastT st.time ∧
      lastT st.time < (10 : ℚ) + maxGap st.time :=
  C8_loop_duration ⟨3, 3, 90, 0, 200, 10⟩
    [(1, Tick.ok 0 0 7 3), (11, Tick.ok 1 1 1 1)]
    (by norm_num)
    (by
      intro e he
      rcases List.mem_cons.mp he with he | he
      · subst he; exact ⟨0, 0, 7, 3, rfl⟩
      · rcases List.mem_cons.mp he with he | he
        · subst he; exact ⟨1, 1, 1, 1, rfl⟩
        · cases he)
    ⟨(11, Tick.ok 1 1 1 1), by simp, by norm_num⟩

/-- C4 counterexample: invoked on a single recorded sample, `get_params`
does not fail at all: the code contains no `n ≥ 2` check and no
`EstimationError`; with one sample the aligned arrays are empty, the
pseudo-inverse of the empty 2×0 matrix is the empty 0×2 matrix, and the
product is the zero row, so the call silently returns `(0.0, 0.0)`. -/
theorem C4_counterexample :
    get_params [0] [⟨0, 0, 5, 0⟩] = some (0, 0) ∧
    (get_params [0] [⟨0, 0, 5, 0⟩]).isSome = true := by
  constructor
  · norm_num [get_params, solveLS, ddqOf, diffs, dot]
  · norm_num [get_params]

/-- C4 (amended): `get_params` performs no sample-count validation and no
`EstimationError(InsufficientSamples)` exists in the code.  On a
sequence of length 0 it fails (an `IndexError` from `state[:, 0]`, not
an `EstimationError`); on a sequence of length 1 it does NOT fail — the
aligned arrays are empty, no division is performed, and it silently
returns `(0.0, 0.0)`; and on exactly 2 raw samples, with the time array
in step and the two timestamps distinct (so the single finite
difference is finite and the pseudo-inverse is defined), it succeeds
without fault, as the claim's second half says.  (Degenerate non-empty
data — a zero time delta, or a time array out of step with the sample
rows — makes numpy raise and is outside this statement.) -/
theorem C4_amended_no_length_check (time : List ℚ) (t1 t2 : ℚ)
    (s s1 s2 : Sample) (hne : t1 ≠ t2) :
    get_params time [] = none ∧
    get_params [t1] [s] = some (0, 0) ∧
    (get_params [t1, t2] [s1, s2]).isSome = true := by
  refine ⟨by simp [get_params], ?_, by simp [get_params]⟩
  norm_num [get_params, solveLS, ddqOf, diffs, dot]

/-- Witness for the amended C4 at concrete inputs. -/
theorem C4_amended_no_length_check_witness :
    get_params [5] [] = none ∧
    get_params [(0 : ℚ)] [⟨0, 0, 5, 0⟩] = some (0, 0) ∧
    (get_params [(0 : ℚ), 1]
      [⟨0, 0, 9, 0⟩, ⟨0, 1, 5/2, 0⟩]).isSome = true :=
  C4_amended_no_length_check [5] 0 1 ⟨0, 0, 5, 0⟩ ⟨0, 0, 9, 0⟩
    ⟨0, 1, 5/2, 0⟩ (by norm_num)

/-- C1 (code bug): on an exactly-fitting full-rank dataset — the aligned
rows satisfy `I_i = 2*ddq_i + (1/2)*dq_i`, so by the uniqueness conjunct
the least-squares solution has dq-coefficient 1/2 and ddq-coefficient 2 —
`get_params` returns `(1/2, 2)`: its first component (documented as the
moment of inertia J) is the coefficient of the VELOCITY column `dq`, and
its second (documented as the friction coefficient B) is the coefficient
of the ACCELERATION column `ddq`; `specEstimate`, written from the
spec's words, returns `(2, 1/2)`.  The two coefficients are returned
swapped relative to the docstring and the physical model. -/
theorem C1_coefficients_swapped :
    get_params [0, 1, 2] [⟨0, 0, 9, 0⟩, ⟨0, 1, 5/2, 0⟩, ⟨0, 1, 1/2, 0⟩]
      = some (1/2, 2) ∧
    specEstimate [0, 1, 2] [⟨0, 0, 9, 0⟩, ⟨0, 1, 5/2, 0⟩, ⟨0, 1, 1/2, 0⟩]
      = some (2, 1/2) ∧
    ([⟨0, 0, 9, 0⟩, ⟨0, 1, 5/2, 0⟩, ⟨0, 1, 1/2, 0⟩].map Sample.dq).tail
      = [1, 1] ∧
    ddqOf [0, 1, 2] [⟨0, 0, 9, 0⟩, ⟨0, 1, 5/2, 0⟩, ⟨0, 1, 1/2, 0⟩]
      = [1, 0] ∧
    ([⟨0, 0, 9, 0⟩, ⟨0, 1, 5/2, 0⟩, ⟨0, 1, 1/2, 0⟩].map Sample.cur).tail
      = [5/2, 1/2] ∧
    (∀ c : ℚ × ℚ, NE [1, 1] [1, 0] [5/2, 1/2] c → c = (1/2, 2)) ∧
    ((1 : ℚ)/2 ≠ 2) := by
  refine ⟨?_, ?_, by norm_num, ?_, by norm_num, ?_, by norm_num⟩
  · norm_num [get_params, solveLS, ddqOf, diffs, dot]
    exact fun h => absurd h (by simp)
  · norm_num [specEstimate, solveLS, ddqOf, diffs, dot]
    exact fun h => absurd h (by simp)
  · norm_num [ddqOf, diffs]
  · rintro ⟨c1, c2⟩ hc
    obtain ⟨h1, h2⟩ := hc
    norm_num [dot] at h1 h2
    have hc1 : c1 = 1/2 := by linarith
    have hc2 : c2 = 2 := by linarith
    rw [hc1, hc2]

lemma dot_nil_left (b : List ℚ) : dot [] b = 0 := by cases b <;> rfl

lemma dot_nil_right (a : List ℚ) : dot a [] = 0 := by cases a <;> rfl

lemma dot_comm (a : List ℚ) : ∀ b, dot a b = dot b a := by
  induction a with
  | nil => intro b; rw [dot_nil_left, dot_nil_right]
  | cons x xs ih =>
    intro b
    cases b with
    | nil => rw [dot_nil_left, dot_nil_right]
    | cons y ys =>
      show x * y + dot xs ys = y * x + dot ys xs
      rw [ih ys]
      ring

lemma dot_self_nonneg (a : List ℚ) : 0 ≤ dot a a := by
  induction a with
  | nil => rw [dot_nil_left]
  | cons x xs ih =>
    show 0 ≤ x * x + dot xs xs
    nlinarith [mul_self_nonneg x]

lemma eq_zero_of_dot_self (a : List ℚ) (h : dot a a = 0) :
    ∀ x ∈ a, x = 0 := by
  induction a with
  | nil => intro x hx; cases hx
  | cons y ys ih =>
    have hy : y * y + dot ys ys = 0 := h
    have h1 : 0 ≤ dot ys ys := dot_self_nonneg ys
    have h2 : 0 ≤ y * y := mul_self_nonneg y
    have hy0 : y = 0 := by nlinarith
    have hrest : dot ys ys = 0 := by nlinarith
    intro x hx
    rcases List.mem_cons.mp hx with hx | hx
    · rw [hx]; exact hy0
    · exact ih hrest x hx

lemma dot_eq_zero_of_left (a : List ℚ) (h : ∀ x ∈ a, x = 0) :
    ∀ b, dot a b = 0 := by
  induction a with
  | nil => exact dot_nil_left
  | cons y ys ih =>
    intro b
    cases b with
    | nil => exact dot_nil_right _
    | cons z zs =>
      show y * z + dot ys zs = 0
      rw [h y (List.mem_cons_self _ _),
        ih (fun x hx => h x (List.mem_cons_of_mem _ hx)) zs]
      ring

lemma dot_comboList (r s : ℚ) (a : List ℚ) :
    ∀ (b c : List ℚ), a.length = b.length →
      dot (comboList r s a b) c = r * dot a c + s * dot b c := by
  induction a with
  | nil =>
    intro b c hlen
    cases b with
    | nil => simp [comboList, dot_nil_left]
    | cons z zs => simp at hlen
  | cons x xs ih =>
    intro b c hlen
    cases b with
    | nil => simp at hlen
    | cons z zs =>
      cases c with
      | nil =>
        rw [dot_nil_right, dot_nil_right, dot_nil_right]
        ring
      | cons w ws =>
        have hlen' : xs.length = zs.length := by simpa using hlen
        show (r * x + s * z) * w + dot (comboList r s xs zs) ws = _
        rw [ih zs ws hlen']
        show _ = r * (x * w + dot xs ws) + s * (z * w + dot zs ws)
        ring

lemma dot_comboList_self (w1 w2 : ℚ) (a b : List ℚ)
    (hab : a.length = b.length) :
    dot (comboList w1 w2 a b) (comboList w1 w2 a b)
      = w1^2 * dot a a + 2 * w1 * w2 * dot a b + w2^2 * dot b b := by
  rw [dot_comboList w1 w2 a b _ hab]
  rw [dot_comm a (comboList w1 w2 a b), dot_comboList w1 w2 a b a hab]
  rw [dot_comm b (comboList w1 w2 a b), dot_comboList w1 w2 a b b hab]
  rw [dot_comm b a]
  ring

/-- Cauchy–Schwarz equality (zero Gram determinant) forces the two
cross-moment identities used by the rank-one pseudo-inverse branch. -/
lemma det_zero_ids (a b y : List ℚ) (hab : a.length = b.length)
    (hdet : dot a a * dot b b - dot a b * dot a b = 0) :
    dot b b * dot a y = dot a b * dot b y ∧
    dot a a * dot b y = dot a b * dot a y := by
  constructor
  · have hu : dot (comboList (dot b b) (-(dot a b)) a b)
        (comboList (dot b b) (-(dot a b)) a b) = 0 := by
      rw [dot_comboList_self _ _ a b hab]
      linear_combination dot b b * hdet
    have hz := eq_zero_of_dot_self _ hu
    have h0 := dot_eq_zero_of_left _ hz y
    rw [dot_comboList (dot b b) (-(dot a b)) a b y hab] at h0
    linarith
  · have hu : dot (comboList (-(dot a b)) (dot a a) a b)
        (comboList (-(dot a b)) (dot a a) a b) = 0 := by
      rw [dot_comboList_self _ _ a b hab]
      linear_combination dot a a * hdet
    have hz := eq_zero_of_dot_self _ hu
    have h0 := dot_eq_zero_of_left _ hz y
    rw [dot_comboList (-(dot a b)) (dot a a) a b y hab] at h0
    linarith

/-- The pair computed by `solveLS` satisfies the normal equations, in
all three rank cases of the pseudo-inverse. -/
lemma solveLS_NE (a b y : List ℚ) (hab : a.length = b.length) :
    NE a b y (solveLS a b y) := by
  unfold solveLS NE
  split_ifs with hdet htr
  · constructor
    · field_simp
      ring
    · field_simp
      ring
  · have hdet' : dot a a * dot b b - dot a b * dot a b = 0 := not_not.mp hdet
    obtain ⟨id1, id2⟩ := det_zero_ids a b y hab hdet'
    have h2 : (dot a a + dot b b) ^ 2 ≠ 0 := pow_ne_zero _ htr
    constructor
    · field_simp
      linear_combination (-(dot a a + dot b b)) * id1 - dot a y * hdet'
    · field_simp
      linear_combination (-(dot a a + dot b b)) * id2 - dot b y * hdet'
  · have h0 : dot a a + dot b b = 0 := not_not.mp htr
    have haa : dot a a = 0 := by
      nlinarith [dot_self_nonneg a, dot_self_nonneg b]
    have hbb : dot b b = 0 := by
      nlinarith [dot_self_nonneg a, dot_self_nonneg b]
    have hza := eq_zero_of_dot_self a haa
    have hzb := eq_zero_of_dot_self b hbb
    constructor
    · simp [dot_eq_zero_of_left a hza]
    · simp [dot_eq_zero_of_left b hzb, dot_eq_zero_of_left a hza, hbb]

/-- Among all solutions of the normal equations, the pair computed by
`solveLS` has minimal squared euclidean norm (the minimum-norm property
of the Moore–Penrose pseudo-inverse solve). -/
lemma solveLS_min_norm (a b y : List ℚ) (hab : a.length = b.length) :
    ∀ d : ℚ × ℚ, NE a b y d →
      (solveLS a b y).1 ^ 2 + (solveLS a b y).2 ^ 2
        ≤ d.1 ^ 2 + d.2 ^ 2 := by
  intro d hd
  obtain ⟨hc1, hc2⟩ := solveLS_NE a b y hab
  obtain ⟨hd1, hd2⟩ := hd
  have hw1 : dot a a * (d.1 - (solveLS a b y).1)
      + dot a b * (d.2 - (solveLS a b y).2) = 0 := by
    linear_combination hd1 - hc1
  have hw2 : dot a b * (d.1 - (solveLS a b y).1)
      + dot b b * (d.2 - (solveLS a b y).2) = 0 := by
    linear_combination hd2 - hc2
  have hcw : (solveLS a b y).1 * (d.1 - (solveLS a b y).1)
      + (solveLS a b y).2 * (d.2 - (solveLS a b y).2) = 0 := by
    by_cases hdet : dot a a * dot b b - dot a b * dot a b ≠ 0
    · have hz1 : (dot a a * dot b b - dot a b * dot a b)
          * (d.1 - (solveLS a b y).1) = 0 := by
        linear_combination dot b b * hw1 - dot a b * hw2
      have hz2 : (dot a a * dot b b - dot a b * dot a b)
          * (d.2 - (solveLS a b y).2) = 0 := by
        linear_combination dot a a * hw2 - dot a b * hw1
      have e1 : d.1 - (solveLS a b y).1 = 0 :=
        (mul_eq_zero.mp hz1).resolve_left hdet
      have e2 : d.2 - (solveLS a b y).2 = 0 :=
        (mul_eq_zero.mp hz2).resolve_left hdet
      rw [e1, e2]
      ring
    · by_cases htr : dot a a + dot b b ≠ 0
      · have hc1' : (solveLS a b y).1
            = (dot a a * dot a y + dot a b * dot b y)
              / (dot a a + dot b b) ^ 2 := by
          unfold solveLS
          rw [if_neg hdet, if_pos htr]
        have hc2' : (solveLS a b y).2
            = (dot a b * dot a y + dot b b * dot b y)
              / (dot a a + dot b b) ^ 2 := by
          unfold solveLS
          rw [if_neg hdet, if_pos htr]
        have h2 : (dot a a + dot b b) ^ 2 ≠ 0 := pow_ne_zero _ htr
        have hc1'' : (solveLS a b y).1 * (dot a a + dot b b) ^ 2
            = dot a a * dot a y + dot a b * dot b y := by
          rw [hc1']
          field_simp
        have hc2'' : (solveLS a b y).2 * (dot a a + dot b b) ^ 2
            = dot a b * dot a y + dot b b * dot b y := by
          rw [hc2']
          field_simp
        have hmul : ((solveLS a b y).1 * (d.1 - (solveLS a b y).1)
            + (solveLS a b y).2 * (d.2 - (solveLS a b y).2))
              * (dot a a + dot b b) ^ 2 = 0 := by
          linear_combination (d.1 - (solveLS a b y).1) * hc1''
            + (d.2 - (solveLS a b y).2) * hc2''
            + dot a y * hw1 + dot b y * hw2
        exact (mul_eq_zero.mp hmul).resolve_right h2
      · have hc1' : (solveLS a b y).1 = 0 := by
          unfold solveLS
          rw [if_neg hdet, if_neg htr]
        have hc2' : (solveLS a b y).2 = 0 := by
          unfold solveLS
          rw [if_neg hdet, if_neg htr]
        rw [hc1', hc2']
        ring
  nlinarith [sq_nonneg (d.1 - (solveLS a b y).1),
    sq_nonneg (d.2 - (solveLS a b y).2), hcw]

/-- Quadratic expansion of the squared residual in terms of the moment
sums of the columns. -/
lemma residSq_expand (d : ℚ × ℚ) (a : List ℚ) :
    ∀ (b y : List ℚ), a.length = b.length → b.length = y.length →
      residSq a b y d
        = d.1 ^ 2 * dot a a + 2 * d.1 * d.2 * dot a b + d.2 ^ 2 * dot b b
          - 2 * (d.1 * dot a y + d.2 * dot b y) + dot y y := by
  induction a with
  | nil =>
    intro b y h1 h2
    cases b with
    | cons z zs => simp at h1
    | nil =>
      cases y with
      | cons w ws => simp at h2
      | nil =>
        rw [show residSq [] [] [] d = 0 from rfl]
        simp only [show dot ([] : List ℚ) [] = 0 from rfl]
        ring
  | cons x xs ih =>
    intro b y h1 h2
    cases b with
    | nil => simp at h1
    | cons z zs =>
      cases y with
      | nil => simp at h2
      | cons w ws =>
        have h1' : xs.length = zs.length := by simpa using h1
        have h2' : zs.length = ws.length := by simpa using h2
        rw [show residSq (x :: xs) (z :: zs) (w :: ws) d
          = (d.1 * x + d.2 * z - w) * (d.1 * x + d.2 * z - w)
            + residSq xs zs ws d from rfl]
        rw [ih zs ws h1' h2']
        rw [show dot (x :: xs) (x :: xs) = x * x + dot xs xs from rfl,
          show dot (x :: xs) (z :: zs) = x * z + dot xs zs from rfl,
          show dot (z :: zs) (z :: zs) = z * z + dot zs zs from rfl,
          show dot (x :: xs) (w :: ws) = x * w + dot xs ws from rfl,
          show dot (z :: zs) (w :: ws) = z * w + dot zs ws from rfl,
          show dot (w :: ws) (w :: ws) = w * w + dot ws ws from rfl]
        ring

/-- Completing the square: any candidate's squared residual exceeds the
`solveLS` one by exactly the Gram quadratic form of the difference. -/
lemma residSq_diff (a b y : List ℚ) (hab : a.length = b.length)
    (hby : b.length = y.length) (d : ℚ × ℚ) :
    residSq a b y d
      = residSq a b y (solveLS a b y)
        + ((d.1 - (solveLS a b y).1) ^ 2 * dot a a
          + 2 * (d.1 - (solveLS a b y).1) * (d.2 - (solveLS a b y).2)
            * dot a b
          + (d.2 - (solveLS a b y).2) ^ 2 * dot b b) := by
  obtain ⟨hc1, hc2⟩ := solveLS_NE a b y hab
  rw [residSq_expand d a b y hab hby,
    residSq_expand (solveLS a b y) a b y hab hby]
  linear_combination (2 * (d.1 - (solveLS a b y).1)) * hc1
    + (2 * (d.2 - (solveLS a b y).2)) * hc2

/-- The Gram quadratic form of two columns is positive semidefinite. -/
lemma gram_nonneg (a b : List ℚ) (hab : a.length = b.length)
    (w1 w2 : ℚ) :
    0 ≤ w1 ^ 2 * dot a a + 2 * w1 * w2 * dot a b + w2 ^ 2 * dot b b := by
  have h := dot_self_nonneg (comboList w1 w2 a b)
  rwa [dot_comboList_self w1 w2 a b hab] at h

/-- The pair computed by `solveLS` minimises the squared residual over
all coefficient pairs: it is a least-squares solution. -/
lemma solveLS_least_squares (a b y : List ℚ) (hab : a.length = b.length)
    (hby : b.length = y.length) :
    ∀ d : ℚ × ℚ, residSq a b y (solveLS a b y) ≤ residSq a b y d := by
  intro d
  rw [residSq_diff a b y hab hby d]
  have := gram_nonneg a b hab (d.1 - (solveLS a b y).1)
    (d.2 - (solveLS a b y).2)
  linarith

/-- Conversely, any pair whose squared residual is not larger than the
`solveLS` one satisfies the normal equations: the least-squares
minimisers are exactly the normal-equation solutions. -/
lemma least_squares_imp_NE (a b y : List ℚ) (hab : a.length = b.length)
    (hby : b.length = y.length) (d : ℚ × ℚ)
    (hmin : residSq a b y d ≤ residSq a b y (solveLS a b y)) :
    NE a b y d := by
  obtain ⟨hc1, hc2⟩ := solveLS_NE a b y hab
  have hdiff := residSq_diff a b y hab hby d
  have hQnn := gram_nonneg a b hab (d.1 - (solveLS a b y).1)
    (d.2 - (solveLS a b y).2)
  have hQ0 : (d.1 - (solveLS a b y).1) ^ 2 * dot a a
      + 2 * (d.1 - (solveLS a b y).1) * (d.2 - (solveLS a b y).2)
        * dot a b
      + (d.2 - (solveLS a b y).2) ^ 2 * dot b b = 0 := by
    linarith
  have hu : dot (comboList (d.1 - (solveLS a b y).1)
      (d.2 - (solveLS a b y).2) a b)
      (comboList (d.1 - (solveLS a b y).1) (d.2 - (solveLS a b y).2) a b)
        = 0 := by
    rw [dot_comboList_self _ _ a b hab]
    exact hQ0
  have hz := eq_zero_of_dot_self _ hu
  have hga := dot_eq_zero_of_left _ hz a
  have hgb := dot_eq_zero_of_left _ hz b
  rw [dot_comboList _ _ a b a hab, dot_comm b a] at hga
  rw [dot_comboList _ _ a b b hab] at hgb
  constructor
  · linear_combination hc1 + hga
  · linear_combination hc2 + hgb

lemma getD_zipWith (f : ℚ → ℚ → ℚ) (xs : List ℚ) :
    ∀ (ys : List ℚ) (i : ℕ), i < xs.length → i < ys.length →
      (List.zipWith f xs ys).getD i 0 = f (xs.getD i 0) (ys.getD i 0) := by
  induction xs with
  | nil => intro ys i h1 _; simp at h1
  | cons x xs ih =>
    intro ys i h1 h2
    cases ys with
    | nil => simp at h2
    | cons y ys =>
      cases i with
      | zero => rfl
      | succ j =>
        have h1' : j < xs.length := by simpa using h1
        have h2' : j < ys.length := by simpa using h2
        exact ih ys j h1' h2'

lemma getD_tail (l : List ℚ) (i : ℕ) :
    l.tail.getD i 0 = l.getD (i + 1) 0 := by
  cases l with
  | nil => rfl
  | cons x xs => rfl

lemma diffs_getD (xs : List ℚ) (i : ℕ) (h : i + 1 < xs.length) :
    (diffs xs).getD i 0 = xs.getD (i + 1) 0 - xs.getD i 0 := by
  unfold diffs
  have hb1 : i < xs.tail.length := by
    rw [List.length_tail]
    omega
  have hb2 : i < xs.length := by omega
  rw [getD_zipWith _ xs.tail xs i hb1 hb2, getD_tail]

/-- Index-wise form of the forward finite differences computed by
`get_params`: `ddq_i = (dq_{i+1} - dq_i) / (t_{i+1} - t_i)`. -/
lemma ddqOf_getD (time : List ℚ) (state : List Sample) (i : ℕ)
    (h1 : i + 1 < state.length) (h2 : i + 1 < time.length) :
    (ddqOf time state).getD i 0
      = ((state.map Sample.dq).getD (i + 1) 0
          - (state.map Sample.dq).getD i 0)
        / (time.getD (i + 1) 0 - time.getD i 0) := by
  unfold ddqOf
  have hm : i + 1 < (state.map Sample.dq).length := by
    rw [List.length_map]
    exact h1
  have hb1 : i < (diffs (state.map Sample.dq)).length := by
    simp [diffs]
    omega
  have hb2 : i < (diffs time).length := by
    simp [diffs]
    omega
  rw [getD_zipWith _ _ _ i hb1 hb2, diffs_getD _ i hm, diffs_getD _ i h2]

/-- C7: for a sample sequence of length `n ≥ 2` with pairwise-distinct
timestamps, `get_params` drops the first raw sample (all three aligned
columns have length `n-1`), computes the accelerations by forward
finite differences `ddq_i = (dq_{i+1} - dq_i) / (t_{i+1} - t_i)`, and
returns — without raising, whatever the rank of the data — the pair
that satisfies the normal equations of the `(n-1)`-row system with
columns `[dq, ddq]` and target `I`, minimises the squared residual over
all coefficient pairs (exactly the least-squares minimisers satisfy the
normal equations), and has minimal norm among all normal-equation
solutions: the minimum-norm least-squares solution computed by the
Moore–Penrose pseudo-inverse. -/
theorem C7_estimator_minimum_norm_least_squares (time : List ℚ)
    (state : List Sample) (hlen : time.length = state.length)
    (h2 : 2 ≤ state.length)
    (hdist : time.Pairwise (fun s t => s ≠ t)) :
    ∃ c : ℚ × ℚ,
      get_params time state = some c ∧
      (ddqOf time state).length = state.length - 1 ∧
      (state.map Sample.dq).tail.length = state.length - 1 ∧
      (state.map Sample.cur).tail.length = state.length - 1 ∧
      (∀ i : ℕ, i + 1 < state.length →
        (ddqOf time state).getD i 0
          = ((state.map Sample.dq).getD (i + 1) 0
              - (state.map Sample.dq).getD i 0)
            / (time.getD (i + 1) 0 - time.getD i 0)) ∧
      NE (state.map Sample.dq).tail (ddqOf time state)
        (state.map Sample.cur).tail c ∧
      (∀ d : ℚ × ℚ,
        residSq (state.map Sample.dq).tail (ddqOf time state)
            (state.map Sample.cur).tail c
          ≤ residSq (state.map Sample.dq).tail (ddqOf time state)
            (state.map Sample.cur).tail d) ∧
      (∀ d : ℚ × ℚ,
        residSq (state.map Sample.dq).tail (ddqOf time state)
            (state.map Sample.cur).tail d
          ≤ residSq (state.map Sample.dq).tail (ddqOf time state)
            (state.map Sample.cur).tail c →
        NE (state.map Sample.dq).tail (ddqOf time state)
          (state.map Sample.cur).tail d) ∧
      (∀ d : ℚ × ℚ,
        NE (state.map Sample.dq).tail (ddqOf time state)
          (state.map Sample.cur).tail d →
        c.1 ^ 2 + c.2 ^ 2 ≤ d.1 ^ 2 + d.2 ^ 2) := by
  have hne : state ≠ [] := List.ne_nil_of_length_pos (by omega)
  have hlab : (state.map Sample.dq).tail.length
      = (ddqOf time state).length := by
    simp [ddqOf, diffs]
    omega
  have hlby : (ddqOf time state).length
      = (state.map Sample.cur).tail.length := by
    simp [ddqOf, diffs]
    omega
  refine ⟨solveLS (state.map Sample.dq).tail (ddqOf time state)
      (state.map Sample.cur).tail, ?_, ?_, ?_, ?_, ?_, ?_, ?_, ?_, ?_⟩
  · unfold get_params
    rw [if_neg hne]
  · simp [ddqOf, diffs]
    omega
  · simp
  · simp
  · intro i hi
    exact ddqOf_getD time state i hi (by omega)
  · exact solveLS_NE _ _ _ hlab
  · exact solveLS_least_squares _ _ _ hlab hlby
  · exact fun d hd => least_squares_imp_NE _ _ _ hlab hlby d hd
  · exact solveLS_min_norm _ _ _ hlab

/-- Witness for C7 at a concrete three-sample dataset. -/
theorem C7_estimator_minimum_norm_least_squares_witness :
    (get_params [0, 1, 2]
      [⟨0, 0, 9, 0⟩, ⟨0, 1, 5/2, 0⟩, ⟨0, 1, 1/2, 0⟩]).isSome := by
  obtain ⟨c, hc, _⟩ := C7_estimator_minimum_norm_least_squares
    [0, 1, 2] [⟨0, 0, 9, 0⟩, ⟨0, 1, 5/2, 0⟩, ⟨0, 1, 1/2, 0⟩]
    (by norm_num) (by norm_num)
    (by norm_num [List.pairwise_cons])
  rw [hc]
  rfl

end Mechatronics

